import Mathlib

/-!
Verification of the godash board-state/rules core (board representation,
group and liberty analysis, legality checking, capture-resolving move
application) against its design specification.

The repository source provides the `Board` wrapper class (`src/board.js`),
the position primitives (`src/position.js`) and the public export surface;
the bodies of the analysis and transform modules (`analysis.js`,
`transforms.js`, `utils.js`) are not part of the provided sources, so those
operations are modelled from the specification, as marked on each
definition.
-/

deriving instance DecidableEq for Except

namespace Godash

/-- Stone colors.  `EMPTY` is never stored: an empty point is simply absent
from the board mapping, so a point color is represented as `Option GoColor`
with `none` meaning empty. -/
inductive GoColor where
  | black
  | white
deriving DecidableEq, Repr

/-- A board position: an ordered pair of non-negative integers (row, col),
as produced by `position` in `src/position.js`. -/
abbrev Coord := Nat × Nat

/-- Modelled from the spec: color negation (`oppositeColor`), undefined for
empty. -/
def oppositeColor : GoColor → GoColor
  | .black => .white
  | .white => .black

/-- Modelled from the spec: the orthogonal (4-connectivity) neighbors of a
coordinate.  Two coordinates are adjacent iff they differ by exactly 1 in
exactly one axis; the candidates at row 0 or column 0 have no upper/left
neighbor, hence the guards. -/
def neighbors (p : Coord) : List Coord :=
  (if 0 < p.1 then [(p.1 - 1, p.2)] else []) ++
    [(p.1 + 1, p.2)] ++
    (if 0 < p.2 then [(p.1, p.2 - 1)] else []) ++
    [(p.1, p.2 + 1)]

/-- Modelled from the spec: a coordinate lies within the board exactly when
both components are in `[0, size)`. -/
def inBounds (size : Nat) (p : Coord) : Bool :=
  p.1 < size && p.2 < size

/-- The board state: a positive dimension plus a mapping from occupied
coordinates to their color (the backing persistent `Map` of `Board` in
`src/board.js`, with the size entry carried separately). -/
structure GoBoard where
  size : Nat
  stones : List (Coord × GoColor)
deriving DecidableEq, Repr

/-- The color stored at a coordinate; `none` for an empty point
(`colorAt` in the spec, `board.data.get(position)` in `src/board.js`). -/
def colorAt (b : GoBoard) (p : Coord) : Option GoColor :=
  b.stones.lookup p

/-- All coordinates of a `size × size` board, row-major
(`allPossibleMoves` in the source). -/
def allCoords (size : Nat) : List Coord :=
  (List.range (size * size)).map (fun k => (k / size, k % size))

/-- Number of on-board coordinates not yet visited; the termination measure
of the flood fill. -/
def unvisitedCount (size : Nat) (visited : List Coord) : Nat :=
  ((allCoords size).filter (fun c => decide (c ∉ visited))).length

/-- A point admitted by the flood fill started with color `c0`: on-board and
holding exactly the start color (empty matching empty). -/
abbrev goodPoint (b : GoBoard) (c0 : Option GoColor) (q : Coord) : Prop :=
  inBounds b.size q = true ∧ colorAt b q = c0

/-- Modelled from the spec: the traversal underlying `group` in the missing
`analysis.js` — a depth-first flood fill with a visited set, admitting a
candidate iff it is on-board and holds the start color.  The fuel argument
is only a structural-recursion bound; callers pass enough fuel for the
traversal to run to completion (see `floodBound`). -/
def floodFill (b : GoBoard) (c0 : Option GoColor) :
    Nat → List Coord → List Coord → List Coord
  | 0, _, visited => visited
  | _ + 1, [], visited => visited
  | fuel + 1, p :: rest, visited =>
    if p ∈ visited then
      floodFill b c0 fuel rest visited
    else if goodPoint b c0 p then
      floodFill b c0 fuel (neighbors p ++ rest) (p :: visited)
    else
      floodFill b c0 fuel rest visited

/-- Fuel sufficient for `floodFill` to terminate by exhausting its stack:
every step either pops the stack or visits a new on-board point, pushing at
most four candidates. -/
def floodBound (b : GoBoard) (stack visited : List Coord) : Nat :=
  5 * unvisitedCount b.size visited + stack.length

/-- Modelled from the spec: `group(board, position)` of the missing
`analysis.js` — the maximal set of coordinates connected to `position`
through same-colored points, computed by flood fill. -/
def groupCore (b : GoBoard) (p : Coord) : List Coord :=
  floodFill b (colorAt b p) (5 * (b.size * b.size) + 1) [p] []

/-- Error raised by the analyzer queries for an off-board position. -/
def outOfBoundsMessage : String := "Position is not on the board"

/-- Modelled from the spec: the `group` analyzer query; a position outside
board bounds fails with a range/validity error rather than silently
returning an empty result. -/
def group (b : GoBoard) (p : Coord) : Except String (List Coord) :=
  if inBounds b.size p then Except.ok (groupCore b p) else Except.error outOfBoundsMessage

/-- Modelled from the spec: the liberty set — all on-board empty neighbors
of any member of the group of `p`, deduplicated. -/
def libertiesOf (b : GoBoard) (p : Coord) : List Coord :=
  ((groupCore b p).flatMap
    (fun m => (neighbors m).filter
      (fun n => inBounds b.size n && (colorAt b n).isNone))).dedup

/-- Modelled from the spec: `libertyCount`, the cardinality of the liberty
set (the number returned by `Board.liberties` in `src/board.js`). -/
def libertyCount (b : GoBoard) (p : Coord) : Nat :=
  (libertiesOf b p).length

/-- Modelled from the spec: the `liberties` analyzer query; fails with a
range/validity error for an off-board position. -/
def liberties (b : GoBoard) (p : Coord) : Except String (List Coord) :=
  if inBounds b.size p then Except.ok (libertiesOf b p) else Except.error outOfBoundsMessage

/-- Modelled from the spec: `placeStone` of the missing `transforms.js` —
the unconditional write primitive used by the move applier (bounds have
been validated by the rules-respecting callers). -/
def placeStone (b : GoBoard) (p : Coord) (c : GoColor) : GoBoard :=
  ⟨b.size, (p, c) :: b.stones.filter (fun e => decide (e.1 ≠ p))⟩

/-- Modelled from the spec: `removeStones` of the missing `transforms.js` —
clears the given points, ignoring positions already empty or out of bounds
(a no-op for those, not an error). -/
def removeStones (b : GoBoard) (ps : List Coord) : GoBoard :=
  ⟨b.size, b.stones.filter (fun e => decide (e.1 ∉ ps))⟩

/-- Modelled from the spec: capture determination on the post-placement
board `b1` — examine each orthogonal neighbor of the placed stone occupied
by the opposite color; every such group whose liberty count is zero is
captured, the result deduplicated across neighbors of a common group. -/
def capturedBy (b1 : GoBoard) (p : Coord) (c : GoColor) : List Coord :=
  (((neighbors p).filter (fun n => colorAt b1 n == some (oppositeColor c))).flatMap
    (fun n => if libertyCount b1 n = 0 then groupCore b1 n else [])).dedup

/-- Modelled from the spec: the board after placing a stone and removing all
captured opposing groups (the shared pipeline of `isLegalMove` and
`addMove`). -/
def resolvedBoard (b : GoBoard) (p : Coord) (c : GoColor) : GoBoard :=
  removeStones (placeStone b p c) (capturedBy (placeStone b p c) p c)

/-- Modelled from the spec: `isLegalMove` of the missing `analysis.js` —
the point is on-board, currently empty, and after hypothetically placing
the stone and resolving captures the placing group has at least one
liberty.  No ko point is supplied here, so only rules 1-3 apply. -/
def isLegalMove (b : GoBoard) (p : Coord) (c : GoColor) : Bool :=
  inBounds b.size p && (colorAt b p).isNone &&
    (libertyCount (resolvedBoard b p c) p != 0)

/-- Error raised by the rules-respecting move application for an illegal
move. -/
def illegalMoveMessage : String :=
  "Move is illegal: the position is off the board, occupied, or suicidal"

/-- Modelled from the spec: `addMove` of the missing `transforms.js` —
validate legality (failing with a descriptive error string, the board
untouched), place the stone, remove all captured opposing groups, and
return the resulting board. -/
def addMove (b : GoBoard) (p : Coord) (c : GoColor) : Except String GoBoard :=
  if isLegalMove b p c then Except.ok (resolvedBoard b p c)
  else Except.error illegalMoveMessage

/-- Modelled from the spec: `followupKo` — a ko point exists iff the move
captured exactly one opposing stone and the placed stone's own group after
the capture is a single stone with a single liberty; the just-vacated
captured point is then the ko point. -/
def followupKo (b : GoBoard) (p : Coord) (c : GoColor) : Option Coord :=
  match capturedBy (placeStone b p c) p c with
  | [q] =>
    if (groupCore (resolvedBoard b p c) p).length = 1 ∧
        libertyCount (resolvedBoard b p c) p = 1 then
      some q
    else
      none
  | _ => none

/-- The legality predicate exactly as the claim words it: after placing the
stone, every opposing group anywhere on the board whose post-placement
liberty count is zero is removed before the placing group's own liberty
check.  Kept separate from `isLegalMove` (whose capture determination,
per the spec, only examines groups adjacent to the placed stone) so the two
readings can be compared. -/
def claimLegalMove (b : GoBoard) (p : Coord) (c : GoColor) : Bool :=
  inBounds b.size p && (colorAt b p).isNone &&
    (let b1 := placeStone b p c
     let caps := (((b1.stones.filter (fun e => e.2 == oppositeColor c)).map Prod.fst).filter
       (fun q => decide (libertyCount b1 q = 0))).dedup
     libertyCount (removeStones b1 caps) p != 0)

/-- One step of connectivity used to state reachability: `y` is an admitted
point adjacent to `x`. -/
def reachStep (b : GoBoard) (c0 : Option GoColor) (x y : Coord) : Prop :=
  goodPoint b c0 y ∧ y ∈ neighbors x

/-- Reachability from the flood-fill start through admitted points. -/
def Reaches (b : GoBoard) (c0 : Option GoColor) : Coord → Coord → Prop :=
  Relation.ReflTransGen (reachStep b c0)

/-- One undirected step between two admitted adjacent points. -/
def connStep (b : GoBoard) (c0 : Option GoColor) (x y : Coord) : Prop :=
  goodPoint b c0 x ∧ goodPoint b c0 y ∧ y ∈ neighbors x

/-- Conn(ectedness) through a chain of same-colored on-board points. -/
def Connected (b : GoBoard) (c0 : Option GoColor) : Coord → Coord → Prop :=
  Relation.ReflTransGen (connStep b c0)

/-! Model of the javascript-facing surface of `Board` in `src/board.js`:
the backing immutable `Map` (whose keys are the reserved size key plus
arbitrary further keys), the constructor argument shapes, and the argument
shapes accepted by `Board.equals`. -/

/-- A key of the backing map: the reserved size marker, a coordinate, or
any other key a caller might have stored. -/
inductive MKey where
  | sizeKey
  | coordKey (c : Coord)
  | otherKey
deriving DecidableEq, Repr

/-- A value of the backing map: a stone color, a number, or anything else. -/
inductive MVal where
  | colorVal (c : GoColor)
  | numVal (n : Int)
  | otherVal
deriving DecidableEq, Repr

/-- The backing map of a `Board`, as an association list (the immutable
`Map` of the source). -/
abbrev BoardMapJS := List (MKey × MVal)

/-- An argument passed to the `Board` constructor: an immutable map, a
number, or any other value. -/
inductive CtorArg where
  | mapArg (m : BoardMapJS)
  | intArg (n : Int)
  | otherArg
deriving DecidableEq, Repr

/-- Modelled from the spec: the external validation helper
`isPositiveInteger` of the missing `utils.js`, applied to a map value. -/
def isPositiveIntegerVal : MVal → Bool
  | .numVal n => decide (0 < n)
  | _ => false

/-- The source `board.get(SIZE_KEY, 0)`: the value stored under the size
key, defaulting to the number 0. -/
def sizeEntry (m : BoardMapJS) : MVal :=
  (m.lookup .sizeKey).getD (.numVal 0)

/-- The source `isValidBoardMap`: the argument is a map whose size entry is
a positive integer.  (`Map.isMap` is the `mapArg` shape.) -/
def isValidBoardMap : CtorArg → Bool
  | .mapArg m => isPositiveIntegerVal (sizeEntry m)
  | _ => false

/-- The source `isPositiveInteger(board_data)` applied to the raw
constructor argument. -/
def isPositiveIntArg : CtorArg → Bool
  | .intArg n => decide (0 < n)
  | _ => false

/-- Modelled from the spec: `emptyBoard` of the missing `transforms.js` —
an all-empty board of the given size is a map holding only the size
entry. -/
def emptyBoardData (n : Int) : BoardMapJS :=
  [(.sizeKey, .numVal n)]

/-- The `TypeError` message of the `Board` constructor. -/
def ctorErrorMessage : String :=
  "Instantiate a Board with a Map or a positive integer"

/-- The `Board` constructor of `src/board.js`: accept a map validated by
`isValidBoardMap` as the backing data, or a positive integer producing an
empty board; reject anything else with a `TypeError`. -/
def boardConstructor (a : CtorArg) : Except String BoardMapJS :=
  if isValidBoardMap a then
    match a with
    | .mapArg m => Except.ok m
    | _ => Except.error ctorErrorMessage
  else if isPositiveIntArg a then
    match a with
    | .intArg n => Except.ok (emptyBoardData n)
    | _ => Except.error ctorErrorMessage
  else
    Except.error ctorErrorMessage

/-- The constructor-argument shapes the claim says are accepted: a backing
map satisfying the board invariant (every key other than the size marker a
valid coordinate for that size, mapped to a stone color), or a bare
positive integer. -/
def claimedValidCtorArg : CtorArg → Bool
  | .mapArg m =>
    match m.lookup .sizeKey with
    | some (.numVal n) =>
      decide (0 < n) && m.all (fun e =>
        e.1 == .sizeKey ||
          (match e.1, e.2 with
           | .coordKey xy, .colorVal _ =>
             decide ((xy.1 : Int) < n) && decide ((xy.2 : Int) < n)
           | _, _ => false))
    | _ => false
  | .intArg n => decide (0 < n)
  | .otherArg => false

/-- An argument passed to `Board.equals`: another `Board` (whose `data`
property holds its backing map), a bare backing map (no `data` property),
some other truthy value, or a falsy value. -/
inductive EqArg where
  | boardArg (m : BoardMapJS)
  | mapArg (m : BoardMapJS)
  | truthyArg
  | falsyArg
deriving DecidableEq, Repr

/-- Structural (insertion-order independent) equality of two backing maps,
as computed by the immutable `Map.equals`: every entry of each map is
looked up successfully in the other. -/
def mapEqualsJS (m1 m2 : BoardMapJS) : Bool :=
  m1.all (fun e => m2.lookup e.1 == some e.2) &&
    m2.all (fun e => m1.lookup e.1 == some e.2)

/-- The `TypeError` message of `Board.equals`. -/
def equalsErrorMessage : String := "Pass in another board to compare"

/-- The source `Board.equals`: throw for a falsy argument, otherwise
compare this board's data with `other_board.data || other_board` —
the argument's `data` property when present, else the argument itself
(`Map.equals` against a non-map is `false`). -/
def boardEquals (self : BoardMapJS) : EqArg → Except String Bool
  | .falsyArg => Except.error equalsErrorMessage
  | .boardArg m => Except.ok (mapEqualsJS self m)
  | .mapArg m => Except.ok (mapEqualsJS self m)
  | .truthyArg => Except.ok false

/-! Concrete boards used by the scenario claim, the counterexamples and the
witnesses. -/

/-- Scenario B of the spec: 3x3 board, black at (0,1), (2,1), (1,2), white
at (1,1). -/
def boardScenarioB : GoBoard :=
  ⟨3, [((0, 1), .black), ((2, 1), .black), ((1, 2), .black), ((1, 1), .white)]⟩

/-- The board Scenario B produces after black plays (1,0): the white stone
is captured. -/
def boardScenarioBAfter : GoBoard :=
  ⟨3, [((1, 0), .black), ((0, 1), .black), ((2, 1), .black), ((1, 2), .black)]⟩

/-- A degenerate (fixture-built) 2x2 board that already contains a white
group with zero liberties: white at (0,0) enclosed by black at (0,1) and
(1,0). -/
def boardDegenerate : GoBoard :=
  ⟨2, [((0, 0), .white), ((0, 1), .black), ((1, 0), .black)]⟩

/-- A 4x4 ko shape: black plays (1,2), captures the single white stone at
(1,1), and the new black stone is a single stone with the vacated point as
its only liberty. -/
def boardKo : GoBoard :=
  ⟨4, [((0, 1), .black), ((1, 0), .black), ((2, 1), .black),
       ((1, 1), .white), ((0, 2), .white), ((2, 2), .white), ((1, 3), .white)]⟩

/-! Auxiliary lemmas. -/

lemma length_filter_lt_of_pred_false {α : Type} (p : α → Bool) :
    ∀ (l : List α) (x : α), x ∈ l → p x = false → (l.filter p).length < l.length := by
  intro l
  induction l with
  | nil => intro x hx; cases hx
  | cons a l ih =>
    intro x hx hpx
    rcases List.mem_cons.mp hx with rfl | hmem
    · rw [List.filter_cons, hpx]
      exact Nat.lt_succ_of_le (List.length_filter_le p l)
    · rw [List.filter_cons]
      cases hpa : p a
      · simpa using Nat.lt_succ_of_lt (ih x hmem hpx)
      · simpa using Nat.succ_lt_succ (ih x hmem hpx)

lemma mem_allCoords {size : Nat} {p : Coord} :
    p ∈ allCoords size ↔ inBounds size p = true := by
  obtain ⟨i, j⟩ := p
  simp only [allCoords, List.mem_map, List.mem_range, inBounds, Bool.and_eq_true,
    decide_eq_true_eq]
  constructor
  · rintro ⟨k, hk, hkeq⟩
    have hpos : 0 < size := by
      rcases Nat.eq_zero_or_pos size with h0 | h0
      · rw [h0] at hk; omega
      · exact h0
    obtain ⟨rfl, rfl⟩ : k / size = i ∧ k % size = j := by
      rw [Prod.mk.injEq] at hkeq
      exact hkeq
    exact ⟨Nat.div_lt_of_lt_mul hk, Nat.mod_lt _ hpos⟩
  · rintro ⟨hi, hj⟩
    refine ⟨j + size * i, ?_, ?_⟩
    · calc j + size * i < size + size * i := by omega
        _ = size * (i + 1) := by ring
        _ ≤ size * size := Nat.mul_le_mul_left size hi
    · rw [Prod.mk.injEq]
      constructor
      · rw [Nat.add_mul_div_left _ _ (by omega : 0 < size), Nat.div_eq_of_lt hj]
        omega
      · rw [Nat.add_mul_mod_self_left, Nat.mod_eq_of_lt hj]

lemma allCoords_length (size : Nat) : (allCoords size).length = size * size := by
  simp [allCoords]

lemma unvisitedCount_le (size : Nat) (visited : List Coord) :
    unvisitedCount size visited ≤ size * size := by
  calc unvisitedCount size visited ≤ (allCoords size).length :=
      List.length_filter_le _ _
    _ = size * size := allCoords_length size

lemma unvisitedCount_cons_lt {size : Nat} {visited : List Coord} {p : Coord}
    (hb : inBounds size p = true) (hv : p ∉ visited) :
    unvisitedCount size (p :: visited) < unvisitedCount size visited := by
  unfold unvisitedCount
  have hmem : p ∈ allCoords size := mem_allCoords.mpr hb
  have hstep : (allCoords size).filter (fun c => decide (c ∉ p :: visited)) =
      ((allCoords size).filter (fun c => decide (c ∉ visited))).filter
        (fun c => decide (c ≠ p)) := by
    rw [List.filter_filter]
    apply List.filter_congr
    intro c _
    simp only [List.mem_cons, not_or]
    rw [Bool.decide_and, Bool.and_comm]
  rw [hstep]
  apply length_filter_lt_of_pred_false
  · simp only [List.mem_filter, decide_eq_true_eq]
    exact ⟨hmem, hv⟩
  · simp

lemma neighbors_length_le (p : Coord) : (neighbors p).length ≤ 4 := by
  unfold neighbors
  split_ifs <;> simp

lemma mem_neighbors_iff {x y : Coord} :
    y ∈ neighbors x ↔
      ((y.1 = x.1 ∧ (y.2 = x.2 + 1 ∨ y.2 + 1 = x.2)) ∨
        (y.2 = x.2 ∧ (y.1 = x.1 + 1 ∨ y.1 + 1 = x.1))) := by
  obtain ⟨x1, x2⟩ := x
  obtain ⟨y1, y2⟩ := y
  simp only [neighbors, List.mem_append, List.mem_singleton, List.mem_ite_nil_right,
    Prod.mk.injEq]
  omega

lemma mem_neighbors_symm {x y : Coord} : y ∈ neighbors x ↔ x ∈ neighbors y := by
  rw [mem_neighbors_iff, mem_neighbors_iff]
  omega

/-! Unfolding equations and invariants of the flood fill. -/

lemma floodFill_zero (b : GoBoard) (c0 : Option GoColor) (stack visited : List Coord) :
    floodFill b c0 0 stack visited = visited := rfl

lemma floodFill_nil (b : GoBoard) (c0 : Option GoColor) (fuel : Nat) (visited : List Coord) :
    floodFill b c0 (fuel + 1) [] visited = visited := rfl

lemma floodFill_cons (b : GoBoard) (c0 : Option GoColor) (fuel : Nat)
    (p : Coord) (rest visited : List Coord) :
    floodFill b c0 (fuel + 1) (p :: rest) visited =
      if p ∈ visited then
        floodFill b c0 fuel rest visited
      else if goodPoint b c0 p then
        floodFill b c0 fuel (neighbors p ++ rest) (p :: visited)
      else
        floodFill b c0 fuel rest visited := rfl

lemma subset_floodFill (b : GoBoard) (c0 : Option GoColor) :
    ∀ (fuel : Nat) (stack visited : List Coord),
      visited ⊆ floodFill b c0 fuel stack visited := by
  intro fuel
  induction fuel with
  | zero => intro stack visited; rw [floodFill_zero]; exact fun x h => h
  | succ fuel ih =>
    intro stack visited
    cases stack with
    | nil => rw [floodFill_nil]; exact fun x h => h
    | cons p rest =>
      rw [floodFill_cons]
      split_ifs with h1 h2
      · exact ih rest visited
      · exact fun x hx => ih _ _ (List.mem_cons_of_mem p hx)
      · exact ih rest visited

lemma goodPoint_of_mem_floodFill (b : GoBoard) (c0 : Option GoColor) :
    ∀ (fuel : Nat) (stack visited : List Coord),
      (∀ v ∈ visited, goodPoint b c0 v) →
      ∀ q ∈ floodFill b c0 fuel stack visited, goodPoint b c0 q := by
  intro fuel
  induction fuel with
  | zero => intro stack visited hv; rw [floodFill_zero]; exact hv
  | succ fuel ih =>
    intro stack visited hv
    cases stack with
    | nil => rw [floodFill_nil]; exact hv
    | cons p rest =>
      rw [floodFill_cons]
      split_ifs with h1 h2
      · exact ih rest visited hv
      · refine ih _ _ ?_
        intro v hmem
        rcases List.mem_cons.mp hmem with rfl | hmem
        · exact h2
        · exact hv v hmem
      · exact ih rest visited hv

lemma reaches_of_mem_floodFill (b : GoBoard) (c0 : Option GoColor) (p0 : Coord) :
    ∀ (fuel : Nat) (stack visited : List Coord),
      (∀ v ∈ visited, Reaches b c0 p0 v) →
      (∀ x ∈ stack, goodPoint b c0 x → Reaches b c0 p0 x) →
      ∀ q ∈ floodFill b c0 fuel stack visited, Reaches b c0 p0 q := by
  intro fuel
  induction fuel with
  | zero => intro stack visited hv _; rw [floodFill_zero]; exact hv
  | succ fuel ih =>
    intro stack visited hv hs
    cases stack with
    | nil => rw [floodFill_nil]; exact hv
    | cons p rest =>
      rw [floodFill_cons]
      split_ifs with h1 h2
      · exact ih rest visited hv (fun x hx => hs x (List.mem_cons_of_mem p hx))
      · refine ih _ _ ?_ ?_
        · intro v hmem
          rcases List.mem_cons.mp hmem with rfl | hmem
          · exact hs _ (List.mem_cons_self _ rest) h2
          · exact hv v hmem
        · intro x hx hxg
          rcases List.mem_append.mp hx with hx | hx
          · exact (hs p (List.mem_cons_self p rest) h2).tail ⟨hxg, hx⟩
          · exact hs x (List.mem_cons_of_mem p hx) hxg
      · exact ih rest visited hv (fun x hx => hs x (List.mem_cons_of_mem p hx))

lemma mem_floodFill_of_mem_stack (b : GoBoard) (c0 : Option GoColor) :
    ∀ (fuel : Nat) (stack visited : List Coord),
      floodBound b stack visited ≤ fuel →
      ∀ x ∈ stack, goodPoint b c0 x → x ∈ floodFill b c0 fuel stack visited := by
  intro fuel
  induction fuel with
  | zero =>
    intro stack visited hbnd x hx _
    cases stack with
    | nil => cases hx
    | cons p rest => simp [floodBound] at hbnd
  | succ fuel ih =>
    intro stack visited hbnd x hx hxg
    cases stack with
    | nil => cases hx
    | cons p rest =>
      have hbnd' : 5 * unvisitedCount b.size visited + (rest.length + 1) ≤ fuel + 1 := by
        simpa [floodBound] using hbnd
      rw [floodFill_cons]
      split_ifs with h1 h2
      · rcases List.mem_cons.mp hx with rfl | hx
        · exact subset_floodFill b c0 fuel rest visited h1
        · exact ih rest visited (by simp [floodBound]; omega) x hx hxg
      · have hdrop := unvisitedCount_cons_lt h2.1 h1
        have hnb := neighbors_length_le p
        rcases List.mem_cons.mp hx with rfl | hx
        · exact subset_floodFill b c0 fuel _ (x :: visited) (List.mem_cons_self x visited)
        · refine ih _ _ ?_ x (List.mem_append.mpr (Or.inr hx)) hxg
          simp only [floodBound, List.length_append]
          omega
      · rcases List.mem_cons.mp hx with rfl | hx
        · exact absurd hxg h2
        · exact ih rest visited (by simp [floodBound]; omega) x hx hxg

lemma floodFill_closed (b : GoBoard) (c0 : Option GoColor) :
    ∀ (fuel : Nat) (stack visited : List Coord),
      floodBound b stack visited ≤ fuel →
      (∀ v ∈ visited, ∀ n ∈ neighbors v, goodPoint b c0 n → n ∈ visited ∨ n ∈ stack) →
      ∀ q ∈ floodFill b c0 fuel stack visited, ∀ n ∈ neighbors q, goodPoint b c0 n →
        n ∈ floodFill b c0 fuel stack visited := by
  intro fuel
  induction fuel with
  | zero =>
    intro stack visited hbnd hinv q hq n hn hng
    cases stack with
    | nil =>
      rw [floodFill_zero] at hq ⊢
      rcases hinv q hq n hn hng with h | h
      · exact h
      · cases h
    | cons p rest => simp [floodBound] at hbnd
  | succ fuel ih =>
    intro stack visited hbnd hinv
    cases stack with
    | nil =>
      rw [floodFill_nil]
      intro q hq n hn hng
      rcases hinv q hq n hn hng with h | h
      · exact h
      · cases h
    | cons p rest =>
      have hbnd' : 5 * unvisitedCount b.size visited + (rest.length + 1) ≤ fuel + 1 := by
        simpa [floodBound] using hbnd
      rw [floodFill_cons]
      split_ifs with h1 h2
      · refine ih rest visited (by simp [floodBound]; omega) ?_
        intro v hv n hn hng
        rcases hinv v hv n hn hng with h | h
        · exact Or.inl h
        · rcases List.mem_cons.mp h with rfl | h
          · exact Or.inl h1
          · exact Or.inr h
      · have hdrop := unvisitedCount_cons_lt h2.1 h1
        have hnb := neighbors_length_le p
        refine ih _ _ ?_ ?_
        · simp only [floodBound, List.length_append]
          omega
        · intro v hv n hn hng
          rcases List.mem_cons.mp hv with rfl | hv
          · exact Or.inr (List.mem_append.mpr (Or.inl hn))
          · rcases hinv v hv n hn hng with h | h
            · exact Or.inl (List.mem_cons_of_mem p h)
            · rcases List.mem_cons.mp h with rfl | h
              · exact Or.inl (List.mem_cons_self n visited)
              · exact Or.inr (List.mem_append.mpr (Or.inr h))
      · refine ih rest visited (by simp [floodBound]; omega) ?_
        intro v hv n hn hng
        rcases hinv v hv n hn hng with h | h
        · exact Or.inl h
        · rcases List.mem_cons.mp h with rfl | h
          · exact absurd hng h2
          · exact Or.inr h

lemma floodBound_groupCore (b : GoBoard) (p : Coord) :
    floodBound b [p] [] ≤ 5 * (b.size * b.size) + 1 := by
  have h := unvisitedCount_le b.size ([] : List Coord)
  simp only [floodBound, List.length_singleton]
  omega

lemma mem_groupCore_iff {b : GoBoard} {p : Coord} (hb : inBounds b.size p = true)
    (q : Coord) : q ∈ groupCore b p ↔ Reaches b (colorAt b p) p q := by
  constructor
  · intro hq
    refine reaches_of_mem_floodFill b (colorAt b p) p _ [p] [] (by simp) ?_ q hq
    intro x hx _
    rcases List.mem_cons.mp hx with rfl | hx
    · exact Relation.ReflTransGen.refl
    · cases hx
  · intro hr
    induction hr with
    | refl =>
      exact mem_floodFill_of_mem_stack b (colorAt b p) _ [p] []
        (floodBound_groupCore b p) p (List.mem_cons_self p []) ⟨hb, rfl⟩
    | tail hxy hstep ih =>
      exact floodFill_closed b (colorAt b p) _ [p] [] (floodBound_groupCore b p)
        (by simp) _ ih _ hstep.2 hstep.1

lemma goodPoint_of_mem_groupCore {b : GoBoard} {p q : Coord}
    (hq : q ∈ groupCore b p) : goodPoint b (colorAt b p) q :=
  goodPoint_of_mem_floodFill b (colorAt b p) _ [p] [] (by simp) q hq

lemma reaches_connected {b : GoBoard} {c0 : Option GoColor} {p0 q : Coord}
    (hp : goodPoint b c0 p0) (h : Reaches b c0 p0 q) :
    Connected b c0 p0 q ∧ goodPoint b c0 q := by
  induction h with
  | refl => exact ⟨Relation.ReflTransGen.refl, hp⟩
  | tail hxy hstep ih =>
    exact ⟨ih.1.tail ⟨ih.2, hstep.1, hstep.2⟩, hstep.1⟩

lemma connected_symm {b : GoBoard} {c0 : Option GoColor} {x y : Coord}
    (h : Connected b c0 x y) : Connected b c0 y x := by
  refine Relation.ReflTransGen.symmetric ?_ h
  intro u v huv
  exact ⟨huv.2.1, huv.1, mem_neighbors_symm.mp huv.2.2⟩

lemma mem_libertiesOf_iff {b : GoBoard} {p q : Coord} :
    q ∈ libertiesOf b p ↔
      (inBounds b.size q = true ∧ colorAt b q = none ∧
        ∃ m ∈ groupCore b p, q ∈ neighbors m) := by
  simp only [libertiesOf, List.mem_dedup, List.mem_flatMap, List.mem_filter,
    Bool.and_eq_true, Option.isNone_iff_eq_none]
  tauto

lemma lookup_eq_none_iff {α β : Type} [BEq α] [LawfulBEq α] (l : List (α × β)) (k : α) :
    l.lookup k = none ↔ ∀ e ∈ l, e.1 ≠ k := by
  induction l with
  | nil => simp
  | cons e es ih =>
    obtain ⟨a, bv⟩ := e
    rw [List.lookup_cons]
    cases hk : k == a
    · have hne : a ≠ k := fun h => by simp [h] at hk
      simp only [List.mem_cons, forall_eq_or_imp]
      rw [ih]
      simp [hne]
    · have heq : k = a := eq_of_beq hk
      subst heq
      simp

lemma mem_of_lookup_eq_some {α β : Type} [BEq α] [LawfulBEq α] {l : List (α × β)}
    {k : α} {v : β} (h : l.lookup k = some v) : (k, v) ∈ l := by
  induction l with
  | nil => cases h
  | cons e es ih =>
    obtain ⟨a, bv⟩ := e
    rw [List.lookup_cons] at h
    cases hk : k == a
    · rw [hk] at h
      exact List.mem_cons_of_mem _ (ih h)
    · rw [hk] at h
      have hkv : k = a := eq_of_beq hk
      have hbv : bv = v := by injection h
      subst hkv
      subst hbv
      exact List.mem_cons_self _ _

lemma lookup_eq_some_of_mem_nodup {α β : Type} [BEq α] [LawfulBEq α] {l : List (α × β)}
    {k : α} {v : β} (hn : (l.map Prod.fst).Nodup) (hm : (k, v) ∈ l) :
    l.lookup k = some v := by
  induction l with
  | nil => cases hm
  | cons e es ih =>
    obtain ⟨a, bv⟩ := e
    rw [List.map_cons, List.nodup_cons] at hn
    rw [List.lookup_cons]
    rcases List.mem_cons.mp hm with heq | hmem
    · obtain ⟨h1, h2⟩ : k = a ∧ v = bv := by
        rw [Prod.mk.injEq] at heq
        exact heq
      subst h1
      subst h2
      simp
    · have hne : (k == a) = false := by
        apply beq_eq_false_iff_ne.mpr
        intro hka
        subst hka
        exact hn.1 (List.mem_map.mpr ⟨(k, v), hmem, rfl⟩)
      rw [hne]
      exact ih hn.2 hmem

/-! The claims. -/

/-- C1: for every board, position and color, if the move is illegal then
`addMove` raises the descriptive string-valued error and no board is
produced (the input board, being immutable, is untouched); when it
succeeds, the returned board is exactly the placement with all captures
resolved — never a partial application. -/
theorem addMove_illegal_atomic (b : GoBoard) (p : Coord) (c : GoColor) :
    (isLegalMove b p c = false → addMove b p c = Except.error illegalMoveMessage) ∧
    (∀ b2, addMove b p c = Except.ok b2 → b2 = resolvedBoard b p c) := by
  unfold addMove
  split_ifs with h
  · refine ⟨fun hf => ?_, fun b2 hb2 => ?_⟩
    · rw [hf] at h
      cases h
    · injection hb2 with h2
      exact h2.symm
  · refine ⟨fun _ => rfl, fun b2 hb2 => ?_⟩
    cases hb2

/-- Witness for C1 at a concrete illegal move: scenario B's board with an
occupied target point. -/
theorem addMove_illegal_atomic_witness :
    isLegalMove boardScenarioB (1, 1) GoColor.black = false ∧
    addMove boardScenarioB (1, 1) GoColor.black = Except.error illegalMoveMessage :=
  ⟨by decide, (addMove_illegal_atomic boardScenarioB (1, 1) GoColor.black).1 (by decide)⟩

/-- C3: on the 3x3 board with black at (0,1), (2,1), (1,2) and white at
(1,1), black playing (1,0) captures the white stone — its group has zero
liberties on the post-placement board — and the result has no white stones
and exactly the four black stones (0,1), (2,1), (1,2), (1,0). -/
theorem addMove_scenarioB :
    libertyCount (placeStone boardScenarioB (1, 0) GoColor.black) (1, 1) = 0 ∧
    addMove boardScenarioB (1, 0) GoColor.black = Except.ok boardScenarioBAfter ∧
    (∀ e ∈ boardScenarioBAfter.stones, e.2 = GoColor.black) ∧
    (∀ q ∈ allCoords 3, (colorAt boardScenarioBAfter q = some GoColor.black ↔
      q ∈ [(0, 1), (2, 1), (1, 2), (1, 0)])) ∧
    boardScenarioBAfter.stones.length = 4 := by
  decide

/-- C8: the analyzer queries `group` and `liberties` fail with the
range/validity error for a position outside the board bounds, rather than
returning an empty result. -/
theorem analyzer_out_of_bounds (b : GoBoard) (p : Coord)
    (h : inBounds b.size p = false) :
    group b p = Except.error outOfBoundsMessage ∧
    liberties b p = Except.error outOfBoundsMessage := by
  simp [group, liberties, h]

/-- Witness for C8 at a concrete off-board position. -/
theorem analyzer_out_of_bounds_witness :
    inBounds boardScenarioB.size (5, 5) = false ∧
    group boardScenarioB (5, 5) = Except.error outOfBoundsMessage ∧
    liberties boardScenarioB (5, 5) = Except.error outOfBoundsMessage :=
  ⟨by decide, (analyzer_out_of_bounds boardScenarioB (5, 5) (by decide)).1,
    (analyzer_out_of_bounds boardScenarioB (5, 5) (by decide)).2⟩

/-- C9: removing a set of positions is idempotent, and a position holding
no stone (already empty, or off the board — the board invariant stores no
off-board stones) contributes nothing: removal is a total function and
never an error. -/
theorem removeStones_idempotent (b : GoBoard) (S : List Coord) :
    removeStones (removeStones b S) S = removeStones b S ∧
    (∀ s, colorAt b s = none → removeStones b (s :: S) = removeStones b S) := by
  constructor
  · simp [removeStones, List.filter_filter]
  · intro s hs
    have hnone : ∀ e ∈ b.stones, e.1 ≠ s := by
      intro e he
      exact (lookup_eq_none_iff b.stones s).mp hs e he
    unfold removeStones
    congr 1
    apply List.filter_congr
    intro e he
    rw [decide_eq_decide]
    have := hnone e he
    simp only [List.mem_cons]
    tauto

/-- Witness for C9 at a concrete board, set, and already-empty position. -/
theorem removeStones_idempotent_witness :
    colorAt boardScenarioB (2, 2) = none ∧
    removeStones (removeStones boardScenarioB [(0, 1)]) [(0, 1)] =
      removeStones boardScenarioB [(0, 1)] ∧
    removeStones boardScenarioB ((2, 2) :: [(0, 1)]) = removeStones boardScenarioB [(0, 1)] :=
  ⟨by decide, (removeStones_idempotent boardScenarioB [(0, 1)]).1,
    (removeStones_idempotent boardScenarioB [(0, 1)]).2 (2, 2) (by decide)⟩

/-- C2 as stated reads the captures resolved before the self-liberty check
as all opposing groups on the board whose post-placement liberty count is
zero (`claimLegalMove`); the capture determination of the spec only
examines the groups adjacent to the placed stone (`isLegalMove`).  On the
degenerate board that already holds a zero-liberty white group away from
the move the two readings disagree: black at (1,1) is rejected by
`isLegalMove` yet accepted by the claim's reading. -/
theorem isLegalMove_claim_counterexample :
    ¬(isLegalMove boardDegenerate (1, 1) GoColor.black = true ↔
      claimLegalMove boardDegenerate (1, 1) GoColor.black = true) := by
  decide

/-- C2 amended: for every board, position and color, `isLegalMove` returns
true iff the position is on-board and empty and, after hypothetically
placing the stone and first removing all opposing groups adjacent to the
placed stone whose post-placement liberty count is zero, the placing
stone's own group has at least one liberty (captures resolved before the
self-liberty check). -/
theorem isLegalMove_amended (b : GoBoard) (p : Coord) (c : GoColor) :
    isLegalMove b p c = true ↔
      (inBounds b.size p = true ∧ colorAt b p = none ∧
        0 < libertyCount (resolvedBoard b p c) p) := by
  unfold isLegalMove
  simp only [Bool.and_eq_true, bne_iff_ne, ne_eq, Option.isNone_iff_eq_none]
  constructor
  · rintro ⟨⟨h1, h2⟩, h3⟩
    exact ⟨h1, h2, Nat.pos_of_ne_zero h3⟩
  · rintro ⟨h1, h2, h3⟩
    exact ⟨⟨h1, h2⟩, Nat.pos_iff_ne_zero.mp h3⟩

/-- C4: for a legal move, `followupKo` returns the just-vacated captured
point iff the move captured exactly one opposing stone and the placed
stone's own post-capture group is exactly one stone with exactly one
liberty; every other capture shape yields no ko point. -/
theorem followupKo_spec (b : GoBoard) (p : Coord) (c : GoColor)
    (hlegal : isLegalMove b p c = true) (q : Coord) :
    followupKo b p c = some q ↔
      (capturedBy (placeStone b p c) p c = [q] ∧
        (groupCore (resolvedBoard b p c) p).length = 1 ∧
        libertyCount (resolvedBoard b p c) p = 1) := by
  unfold followupKo
  rcases hcaps : capturedBy (placeStone b p c) p c with _ | ⟨q1, _ | ⟨q2, rest2⟩⟩
  · simp
  · change (if (groupCore (resolvedBoard b p c) p).length = 1 ∧
        libertyCount (resolvedBoard b p c) p = 1 then some q1 else none) = some q ↔ _
    split_ifs with hcond
    · simp [hcond.1, hcond.2]
    · constructor
      · intro h
        simp at h
      · rintro ⟨_, h2, h3⟩
        exact absurd ⟨h2, h3⟩ hcond
  · simp

/-- Witness for C4 at the concrete ko shape: black (1,2) captures the lone
white stone at (1,1) and the new stone has that vacated point as its only
liberty. -/
theorem followupKo_spec_witness :
    isLegalMove boardKo (1, 2) GoColor.black = true ∧
    (followupKo boardKo (1, 2) GoColor.black = some (1, 1) ↔
      (capturedBy (placeStone boardKo (1, 2) GoColor.black) (1, 2) GoColor.black = [(1, 1)] ∧
        (groupCore (resolvedBoard boardKo (1, 2) GoColor.black) (1, 2)).length = 1 ∧
        libertyCount (resolvedBoard boardKo (1, 2) GoColor.black) (1, 2) = 1)) :=
  ⟨by decide, followupKo_spec boardKo (1, 2) GoColor.black (by decide) (1, 1)⟩

/-- C5: for an occupied on-board position, its group is served by the
`group` query, every member holds the color of the start, the members are
pairwise connected through chains of same-colored on-board stones under
4-adjacency, no same-colored on-board coordinate adjacent to a member is
excluded (maximality), and an isolated stone yields the singleton set. -/
theorem group_spec (b : GoBoard) (p : Coord) (c : GoColor)
    (hb : inBounds b.size p = true) (hc : colorAt b p = some c) :
    group b p = Except.ok (groupCore b p) ∧
    (∀ q ∈ groupCore b p, colorAt b q = some c) ∧
    (∀ q ∈ groupCore b p, ∀ r ∈ groupCore b p, Connected b (some c) q r) ∧
    (∀ q ∈ groupCore b p, ∀ n ∈ neighbors q, inBounds b.size n = true →
      colorAt b n = some c → n ∈ groupCore b p) ∧
    ((∀ n ∈ neighbors p, ¬(inBounds b.size n = true ∧ colorAt b n = some c)) →
      ∀ q, q ∈ groupCore b p ↔ q = p) := by
  have hp0 : goodPoint b (some c) p := ⟨hb, hc⟩
  have hreach : ∀ q, q ∈ groupCore b p ↔ Reaches b (some c) p q := by
    intro q
    rw [mem_groupCore_iff hb q, hc]
  refine ⟨?_, ?_, ?_, ?_, ?_⟩
  · simp [group, hb]
  · intro q hq
    have hgood := goodPoint_of_mem_groupCore hq
    rw [hc] at hgood
    exact hgood.2
  · intro q hq r hr
    have hq2 := (reaches_connected hp0 ((hreach q).mp hq)).1
    have hr2 := (reaches_connected hp0 ((hreach r).mp hr)).1
    exact Relation.ReflTransGen.trans (connected_symm hq2) hr2
  · intro q hq n hn hbn hcn
    exact (hreach n).mpr (Relation.ReflTransGen.tail ((hreach q).mp hq) ⟨⟨hbn, hcn⟩, hn⟩)
  · intro hiso q
    rw [hreach q]
    constructor
    · intro hr
      rcases Relation.ReflTransGen.cases_head hr with heq | ⟨x, hstep, _⟩
      · exact heq.symm
      · exact absurd hstep.1 (hiso x hstep.2)
    · rintro rfl
      exact Relation.ReflTransGen.refl

/-- Witness for C5 at a concrete occupied position: the isolated black
stone at (0,1) of scenario B. -/
theorem group_spec_witness :
    group boardScenarioB (0, 1) = Except.ok (groupCore boardScenarioB (0, 1)) ∧
    (∀ q ∈ groupCore boardScenarioB (0, 1), colorAt boardScenarioB q = some GoColor.black) ∧
    (∀ q ∈ groupCore boardScenarioB (0, 1), ∀ r ∈ groupCore boardScenarioB (0, 1),
      Connected boardScenarioB (some GoColor.black) q r) ∧
    (∀ q ∈ groupCore boardScenarioB (0, 1), ∀ n ∈ neighbors q,
      inBounds boardScenarioB.size n = true →
        colorAt boardScenarioB n = some GoColor.black →
          n ∈ groupCore boardScenarioB (0, 1)) ∧
    ((∀ n ∈ neighbors ((0, 1) : Coord), ¬(inBounds boardScenarioB.size n = true ∧
        colorAt boardScenarioB n = some GoColor.black)) →
      ∀ q, q ∈ groupCore boardScenarioB (0, 1) ↔ q = (0, 1)) :=
  group_spec boardScenarioB (0, 1) GoColor.black (by decide) (by decide)

/-- C6: for an on-board position, the `liberties` query serves the liberty
set, membership in it is exactly being an on-board empty coordinate
adjacent to some member of the group, the set is deduplicated, and
`libertyCount` is its cardinality. -/
theorem liberties_spec (b : GoBoard) (p : Coord) (hb : inBounds b.size p = true) :
    liberties b p = Except.ok (libertiesOf b p) ∧
    (∀ q, q ∈ libertiesOf b p ↔ (inBounds b.size q = true ∧ colorAt b q = none ∧
      ∃ m ∈ groupCore b p, q ∈ neighbors m)) ∧
    (libertiesOf b p).Nodup ∧
    libertyCount b p = (libertiesOf b p).length := by
  refine ⟨by simp [liberties, hb], fun q => mem_libertiesOf_iff, List.nodup_dedup _, rfl⟩

/-- Witness for C6 at a concrete on-board position: the white stone at
(1,1) of scenario B. -/
theorem liberties_spec_witness :
    liberties boardScenarioB (1, 1) = Except.ok (libertiesOf boardScenarioB (1, 1)) ∧
    (∀ q, q ∈ libertiesOf boardScenarioB (1, 1) ↔
      (inBounds boardScenarioB.size q = true ∧ colorAt boardScenarioB q = none ∧
        ∃ m ∈ groupCore boardScenarioB (1, 1), q ∈ neighbors m)) ∧
    (libertiesOf boardScenarioB (1, 1)).Nodup ∧
    libertyCount boardScenarioB (1, 1) = (libertiesOf boardScenarioB (1, 1)).length :=
  liberties_spec boardScenarioB (1, 1) (by decide)

/-- C7 as stated requires a backing map to satisfy the full board invariant
for construction to succeed, but `isValidBoardMap` in `src/board.js` only
checks that the argument is a map whose size entry is a positive integer:
a map with size 3 and a stone keyed by the off-board coordinate (5,5) is
accepted even though the claimed invariant rejects it. -/
theorem boardConstructor_claim_counterexample :
    ¬(((boardConstructor (CtorArg.mapArg
        [(MKey.sizeKey, MVal.numVal 3),
         (MKey.coordKey (5, 5), MVal.colorVal GoColor.black)])).isOk = true) ↔
      claimedValidCtorArg (CtorArg.mapArg
        [(MKey.sizeKey, MVal.numVal 3),
         (MKey.coordKey (5, 5), MVal.colorVal GoColor.black)]) = true) := by
  decide

/-- C7 amended: board construction succeeds for exactly two input shapes —
a map whose size entry is a positive integer (the remaining keys are not
validated), or a bare positive integer, which produces the all-empty board
of that size; any other input fails with the constructor `TypeError`. -/
theorem boardConstructor_amended (a : CtorArg) :
    ((boardConstructor a).isOk = true ↔ (isValidBoardMap a || isPositiveIntArg a) = true) ∧
    ((isValidBoardMap a || isPositiveIntArg a) = false →
      boardConstructor a = Except.error ctorErrorMessage) ∧
    (∀ n : Int, 0 < n → boardConstructor (CtorArg.intArg n) = Except.ok (emptyBoardData n)) := by
  refine ⟨?_, ?_, ?_⟩
  · unfold boardConstructor
    split_ifs with h1 h2
    · cases a with
      | mapArg m => simp [Except.isOk, Except.toBool, h1]
      | intArg n => simp [isValidBoardMap] at h1
      | otherArg => simp [isValidBoardMap] at h1
    · cases a with
      | mapArg m => simp [isPositiveIntArg] at h2
      | intArg n => simp [Except.isOk, Except.toBool, h2]
      | otherArg => simp [isPositiveIntArg] at h2
    · simp [Except.isOk, Except.toBool, h1, h2]
  · intro h
    rw [Bool.or_eq_false_iff] at h
    simp [boardConstructor, h.1, h.2]
  · intro n hn
    simp [boardConstructor, isValidBoardMap, isPositiveIntArg, hn]

/-- Witness for C7: a concrete rejected input and a concrete accepted bare
positive integer. -/
theorem boardConstructor_amended_witness :
    (isValidBoardMap CtorArg.otherArg || isPositiveIntArg CtorArg.otherArg) = false ∧
    boardConstructor CtorArg.otherArg = Except.error ctorErrorMessage ∧
    (0 : Int) < 3 ∧
    boardConstructor (CtorArg.intArg 3) = Except.ok (emptyBoardData 3) :=
  ⟨by decide, (boardConstructor_amended CtorArg.otherArg).2.1 (by decide), by decide,
    (boardConstructor_amended CtorArg.otherArg).2.2 3 (by decide)⟩

/-- C10: `Board.equals` throws its `TypeError` exactly for a falsy
argument; otherwise it returns the structural equality of the two backing
maps, read from the argument's `data` property when the argument is a
`Board` and from the argument itself when it is a bare map, and — on maps
without duplicate keys — that comparison holds exactly when the two maps
agree on every lookup. -/
theorem equals_spec (self : BoardMapJS) (other : EqArg) :
    (boardEquals self other = Except.error equalsErrorMessage ↔ other = EqArg.falsyArg) ∧
    (∀ m, other = EqArg.boardArg m ∨ other = EqArg.mapArg m →
      boardEquals self other = Except.ok (mapEqualsJS self m)) ∧
    ((self.map Prod.fst).Nodup → ∀ m : BoardMapJS, (m.map Prod.fst).Nodup →
      (mapEqualsJS self m = true ↔ ∀ k, self.lookup k = m.lookup k)) := by
  refine ⟨?_, ?_, ?_⟩
  · cases other <;> simp [boardEquals]
  · rintro m (rfl | rfl) <;> rfl
  · intro hns m hnm
    unfold mapEqualsJS
    rw [Bool.and_eq_true, List.all_eq_true, List.all_eq_true]
    constructor
    · rintro ⟨h1, h2⟩ k
      cases hself : self.lookup k with
      | none =>
        cases hm : m.lookup k with
        | none => rfl
        | some w =>
          have hmem := mem_of_lookup_eq_some hm
          have hsw := h2 (k, w) hmem
          rw [beq_iff_eq] at hsw
          rw [hself] at hsw
          cases hsw
      | some v =>
        have hmem := mem_of_lookup_eq_some hself
        have hmv := h1 (k, v) hmem
        rw [beq_iff_eq] at hmv
        exact hmv.symm
    · intro hlook
      constructor
      · intro e he
        have hmem : (e.1, e.2) ∈ self := by
          rw [Prod.mk.eta]
          exact he
        rw [beq_iff_eq, ← hlook e.1]
        exact lookup_eq_some_of_mem_nodup hns hmem
      · intro e he
        have hmem : (e.1, e.2) ∈ m := by
          rw [Prod.mk.eta]
          exact he
        rw [beq_iff_eq, hlook e.1]
        exact lookup_eq_some_of_mem_nodup hnm hmem

/-- Witness for C10: a concrete map compared against a falsy value, a
`Board` wrapping an equal map, and its lookup-agreement reading. -/
theorem equals_spec_witness :
    boardEquals [(MKey.sizeKey, MVal.numVal 3)] EqArg.falsyArg =
      Except.error equalsErrorMessage ∧
    boardEquals [(MKey.sizeKey, MVal.numVal 3)]
      (EqArg.boardArg [(MKey.sizeKey, MVal.numVal 3)]) =
        Except.ok (mapEqualsJS [(MKey.sizeKey, MVal.numVal 3)]
          [(MKey.sizeKey, MVal.numVal 3)]) ∧
    (mapEqualsJS [(MKey.sizeKey, MVal.numVal 3)] [(MKey.sizeKey, MVal.numVal 3)] = true ↔
      ∀ k, ([(MKey.sizeKey, MVal.numVal 3)] : BoardMapJS).lookup k =
        ([(MKey.sizeKey, MVal.numVal 3)] : BoardMapJS).lookup k) :=
  ⟨(equals_spec [(MKey.sizeKey, MVal.numVal 3)] EqArg.falsyArg).1.mpr rfl,
    (equals_spec [(MKey.sizeKey, MVal.numVal 3)]
      (EqArg.boardArg [(MKey.sizeKey, MVal.numVal 3)])).2.1 _ (Or.inl rfl),
    (equals_spec [(MKey.sizeKey, MVal.numVal 3)] EqArg.falsyArg).2.2
      (by decide) _ (by decide)⟩

end Godash
